import Mathlib

/-!
Verification of the real-time ensemble detection engine of suricata-ml-ids.

Shallow embedding of:
* `src/services/realtime-detector/src/detector_engine.py`
  (`DetectorEngine._calculate_ensemble_prediction`, `_calculate_threat_score`,
   `_calculate_anomaly_score`, `_update_stats`, and the per-model loop of `detect`)
* `src/services/realtime-detector/src/feature_processor.py`
  (`FeatureProcessor.process_features`, `_validate_and_clean_feature`)

Python floats are modelled by `ℚ`; labels by `String` (the numeric positive class
`1` that `_calculate_threat_score` also accepts is embedded as the label `"1"`).
Python dicts iterated in insertion order are modelled by association lists.
-/

namespace SuricataIDS

/-- One model's vote as seen by the ensemble: its registry name, the label it
predicted (the sentinel `"unknown"` when inference failed), the confidence
reported, and the weight resolved from `self.model_weights.get(name, 1.0)`. -/
structure ModelVote where
  name : String
  prediction : String
  confidence : ℚ
  weight : ℚ
deriving DecidableEq

/-- Insertion-order update of `prediction_counts` (a Python `defaultdict(float)`):
`prediction_counts[label] += w`, appending a fresh key at the end. -/
def addVote : List (String × ℚ) → String → ℚ → List (String × ℚ)
  | [], label, w => [(label, w)]
  | (l, v) :: rest, label, w =>
      if l = label then (l, v + w) :: rest else (l, v) :: addVote rest label w

/-- The accumulation loop of `_calculate_ensemble_prediction`: for every model
whose prediction is not `"unknown"`, add `confidence * weight` to
`prediction_counts[prediction]` and to `total_confidence`. -/
def tallyStep (acc : List (String × ℚ) × ℚ) (v : ModelVote) : List (String × ℚ) × ℚ :=
  if v.prediction ≠ "unknown" then
    let weighted_confidence := v.confidence * v.weight
    (addVote acc.1 v.prediction weighted_confidence, acc.2 + weighted_confidence)
  else acc

/-- Runs the accumulation loop of `_calculate_ensemble_prediction` over all
model votes, producing (`prediction_counts`, `total_confidence`). -/
def tally (votes : List ModelVote) : List (String × ℚ) × ℚ :=
  votes.foldl tallyStep ([], 0)

/-- Python's `max(items, key=lambda x: x[1])`: the first maximal element in
iteration order (a later element replaces the current best only when strictly
greater). `none` on the empty list. -/
def maxByValue : List (String × ℚ) → Option (String × ℚ)
  | [] => none
  | x :: xs => some (xs.foldl (fun b y => if y.2 > b.2 then y else b) x)

/-- The `{"prediction": ..., "confidence": ...}` dict returned by
`_calculate_ensemble_prediction`. -/
structure EnsembleResult where
  prediction : String
  confidence : ℚ
deriving DecidableEq

/-- `DetectorEngine._calculate_ensemble_prediction`: weighted vote over the
non-`"unknown"` model predictions; `{"unknown", 0.0}` when `prediction_counts`
is empty; otherwise the label with the largest accumulated weighted confidence,
with confidence `best / total_confidence` if `total_confidence > 0` else `0.0`. -/
def calculate_ensemble_prediction (votes : List ModelVote) : EnsembleResult :=
  match maxByValue (tally votes).1 with
  | none => ⟨"unknown", 0⟩
  | some best => ⟨best.1, if (tally votes).2 > 0 then best.2 / (tally votes).2 else 0⟩

/-- The `prediction == "attack" or prediction == 1` test of
`_calculate_threat_score` (the numeric class `1` embedded as `"1"`). -/
def isAttackLabel (p : String) : Bool :=
  p == "attack" || p == "1"

/-- The accumulation loop of `_calculate_threat_score`: for every
non-`"unknown"` prediction, `total_models += 1`, and for attack votes
`threat_indicators += confidence * weight`. Returns
(`threat_indicators`, `total_models`). -/
def threatStep (acc : ℚ × ℕ) (v : ModelVote) : ℚ × ℕ :=
  if v.prediction ≠ "unknown" then
    (if isAttackLabel v.prediction then acc.1 + v.confidence * v.weight else acc.1,
     acc.2 + 1)
  else acc

/-- Runs the accumulation loop of `_calculate_threat_score` over all votes. -/
def threatTally (votes : List ModelVote) : ℚ × ℕ :=
  votes.foldl threatStep (0, 0)

/-- A raw feature mapping (`Dict[str, float]`), insertion-ordered. -/
def getFeature (features : List (String × ℚ)) (name : String) : ℚ :=
  match features.find? (fun p => p.1 = name) with
  | some p => p.2
  | none => 0

/-- `DetectorEngine._calculate_anomaly_score`: fixed-threshold heuristics on the
raw features (`features.get(name, 0)`), summed and capped at 1.0. -/
def calculate_anomaly_score (features : List (String × ℚ)) : ℚ :=
  let a1 : ℚ := if getFeature features "suspicious_flags" > 5 then 3/10 else 0
  let a2 : ℚ := if getFeature features "packets_per_second" > 100 then 2/10 else 0
  let a3 : ℚ := if getFeature features "tcp_syn_ratio" > 8/10 then 2/10 else 0
  min 1 (a1 + a2 + a3)

/-- The `base_threat_score` of `_calculate_threat_score`:
`threat_indicators / total_models` when `total_models > 0`, else `0.0`. -/
def base_threat_score (votes : List ModelVote) : ℚ :=
  if (threatTally votes).2 > 0
  then (threatTally votes).1 / ((threatTally votes).2 : ℚ)
  else 0

/-- `DetectorEngine._calculate_threat_score`:
`min(1.0, base_threat_score + anomaly_score * 0.2)`. -/
def calculate_threat_score (votes : List ModelVote) (features : List (String × ℚ)) : ℚ :=
  min 1 (base_threat_score votes + calculate_anomaly_score features * (2/10))

/-- A model as the `detect` loop sees it: `outcome = none` models an exception
thrown during inference, `some (label, confidence)` a successful prediction. -/
structure RegisteredModel where
  name : String
  weight : ℚ
  outcome : Option (String × ℚ)
deriving DecidableEq

/-- The per-model `try/except` of `DetectorEngine.detect`: an exception is
recorded as prediction `"unknown"` with confidence `0.0`. -/
def voteOf (m : RegisteredModel) : ModelVote :=
  match m.outcome with
  | some pc => ⟨m.name, pc.1, pc.2, m.weight⟩
  | none => ⟨m.name, "unknown", 0, m.weight⟩

/-- The ensemble-relevant fields of the `DetectionResult` dict built by
`DetectorEngine.detect`. -/
structure DetectOutput where
  prediction : String
  confidence : ℚ
  threat_score : ℚ
deriving DecidableEq

/-- `DetectorEngine.detect` restricted to its pure ensemble core: collect each
model's vote (exceptions recorded as `"unknown"`/0.0), then the ensemble
prediction and the threat score. -/
def detect (registry : List RegisteredModel) (features : List (String × ℚ)) : DetectOutput :=
  let votes := registry.map voteOf
  let e := calculate_ensemble_prediction votes
  ⟨e.prediction, e.confidence, calculate_threat_score votes features⟩

/-- The `self.stats` dict of `DetectorEngine`. -/
structure DetectionStats where
  detections_performed : ℕ
  threats_detected : ℕ
  total_processing_time : ℚ
  avg_processing_time_ms : ℚ
deriving DecidableEq

/-- The initial `self.stats` of `DetectorEngine.__init__`. -/
def initStats : DetectionStats :=
  ⟨0, 0, 0, 0⟩

/-- `DetectorEngine._update_stats`: increment `detections_performed`, add the
processing time, recompute the average, and count a threat iff
`threat_score > 0.5`. -/
def update_stats (s : DetectionStats) (processing_time threat_score : ℚ) : DetectionStats :=
  let performed := s.detections_performed + 1
  let total := s.total_processing_time + processing_time
  { detections_performed := performed
    threats_detected :=
      if threat_score > 5/10 then s.threats_detected + 1 else s.threats_detected
    total_processing_time := total
    avg_processing_time_ms := total / (performed : ℚ) }

/-- A sequence of `_update_stats` calls starting from the initial stats, each
pair carrying (`processing_time_ms`, `threat_score`). -/
def runStats (calls : List (ℚ × ℚ)) : DetectionStats :=
  calls.foldl (fun s p => update_stats s p.1 p.2) initStats

/-- A raw incoming feature value as `_validate_and_clean_feature` can receive
it: `null` (Python `None`), a finite number, a float NaN, a float infinity, or
a value whose `float(...)` coercion raises `ValueError`/`TypeError`. -/
inductive RawValue where
  | null
  | num (q : ℚ)
  | nan
  | infinite
  | noncoercible
deriving DecidableEq

/-- The `self.required_features` list of `FeatureProcessor.__init__`. -/
def required_features : List String :=
  ["total_packets", "total_bytes", "avg_packet_size", "duration",
   "tcp_ratio", "udp_ratio", "icmp_ratio", "packets_per_second",
   "unique_src_ips", "unique_dst_ips", "tcp_syn_ratio",
   "well_known_ports", "high_ports", "payload_entropy",
   "suspicious_flags", "http_requests", "dns_queries", "tls_handshakes"]

/-- The `self.feature_ranges` dict of `FeatureProcessor.__init__`. -/
def feature_ranges : List (String × ℚ × ℚ) :=
  [("total_packets", 0, 10000),
   ("total_bytes", 0, 1000000),
   ("avg_packet_size", 0, 1500),
   ("duration", 0, 3600),
   ("tcp_ratio", 0, 1),
   ("udp_ratio", 0, 1),
   ("icmp_ratio", 0, 1),
   ("packets_per_second", 0, 1000),
   ("unique_src_ips", 0, 1000),
   ("unique_dst_ips", 0, 1000),
   ("tcp_syn_ratio", 0, 1),
   ("well_known_ports", 0, 100),
   ("high_ports", 0, 1000),
   ("payload_entropy", 0, 8),
   ("suspicious_flags", 0, 100),
   ("http_requests", 0, 1000),
   ("dns_queries", 0, 1000),
   ("tls_handshakes", 0, 1000)]

/-- Lookup in `self.feature_ranges` (`feature_name in self.feature_ranges`). -/
def rangeOf (name : String) : Option (ℚ × ℚ) :=
  (feature_ranges.find? (fun p => p.1 = name)).map Prod.snd

/-- The range-constraint step of `_validate_and_clean_feature`: if a range is
declared for the name, `value = min_val` when `value < min_val`, else
`value = max_val` when `value > max_val`; otherwise unchanged. -/
def clampToRange (name : String) (q : ℚ) : ℚ :=
  match rangeOf name with
  | some r => if q < r.1 then r.1 else if q > r.2 then r.2 else q
  | none => q

/-- `FeatureProcessor._validate_and_clean_feature`: `None` becomes `0.0` and is
then range-clamped; NaN and infinity return `0.0` immediately; a failed float
coercion is caught and returns `0.0`; a finite number is range-clamped. -/
def validate_and_clean_feature (name : String) (v : RawValue) : ℚ :=
  match v with
  | .null => clampToRange name 0
  | .num q => clampToRange name q
  | .nan => 0
  | .infinite => 0
  | .noncoercible => 0

/-- `features.get(feature_name, 0.0)` on the raw input mapping. -/
def getRaw (input : List (String × RawValue)) (name : String) : RawValue :=
  match input.find? (fun p => p.1 = name) with
  | some p => p.2
  | none => .num 0

/-- Membership of a key in the processed mapping. -/
def hasKey (m : List (String × ℚ)) (name : String) : Bool :=
  (m.find? (fun p => p.1 = name)).isSome

/-- `FeatureProcessor.process_features`: every required feature is read (default
`0.0`), validated and stored; then every input entry whose name is not already
present is validated and appended. -/
def process_features (input : List (String × RawValue)) : List (String × ℚ) :=
  let processed := required_features.map
    (fun name => (name, validate_and_clean_feature name (getRaw input name)))
  input.foldl
    (fun acc p =>
      if hasKey acc p.1 then acc
      else acc ++ [(p.1, validate_and_clean_feature p.1 p.2)])
    processed

/-! Helper lemmas about the weighted-vote accumulator. -/

/-- Total of the accumulated weighted confidences in `prediction_counts`. -/
def valsSum (c : List (String × ℚ)) : ℚ :=
  (c.map Prod.snd).sum

lemma valsSum_addVote (c : List (String × ℚ)) (l : String) (w : ℚ) :
    valsSum (addVote c l w) = valsSum c + w := by
  induction c with
  | nil => simp [addVote, valsSum]
  | cons x xs ih =>
      obtain ⟨a, b⟩ := x
      by_cases h : a = l
      · simp [addVote, h, valsSum]
        ring
      · simp only [addVote, h, if_false, valsSum, List.map_cons, List.sum_cons] at *
        rw [ih]
        ring

lemma addVote_nonneg {c : List (String × ℚ)} {l : String} {w : ℚ}
    (hc : ∀ p ∈ c, 0 ≤ p.2) (hw : 0 ≤ w) :
    ∀ p ∈ addVote c l w, 0 ≤ p.2 := by
  induction c with
  | nil =>
      intro p hp
      simp [addVote] at hp
      simp [hp, hw]
  | cons x xs ih =>
      obtain ⟨a, b⟩ := x
      intro p hp
      by_cases h : a = l
      · simp only [addVote, h, if_true] at hp
        rcases List.mem_cons.mp hp with h1 | h1
        · subst h1
          have hb : (0:ℚ) ≤ b := hc (a, b) (List.mem_cons_self _ _)
          simpa using add_nonneg hb hw
        · exact hc p (List.mem_cons_of_mem _ h1)
      · simp only [addVote, h, if_false] at hp
        rcases List.mem_cons.mp hp with h1 | h1
        · subst h1
          exact hc (a, b) (List.mem_cons_self _ _)
        · exact ih (fun q hq => hc q (List.mem_cons_of_mem _ hq)) p h1

lemma valsSum_nonneg {c : List (String × ℚ)} (hc : ∀ p ∈ c, 0 ≤ p.2) :
    0 ≤ valsSum c := by
  apply List.sum_nonneg
  intro x hx
  rcases List.mem_map.mp hx with ⟨p, hp, rfl⟩
  exact hc p hp

lemma mem_le_valsSum {c : List (String × ℚ)} (hc : ∀ p ∈ c, 0 ≤ p.2) :
    ∀ p ∈ c, p.2 ≤ valsSum c := by
  induction c with
  | nil => simp
  | cons x xs ih =>
      intro p hp
      have hxs : ∀ q ∈ xs, (0:ℚ) ≤ q.2 := fun q hq => hc q (List.mem_cons_of_mem _ hq)
      rcases List.mem_cons.mp hp with h1 | h1
      · subst h1
        have hs : 0 ≤ valsSum xs := valsSum_nonneg hxs
        simp only [valsSum] at hs
        simp only [valsSum, List.map_cons, List.sum_cons]
        linarith
      · have hx : (0:ℚ) ≤ x.2 := hc x (List.mem_cons_self _ _)
        have hs := ih hxs p h1
        simp only [valsSum] at hs
        simp only [valsSum, List.map_cons, List.sum_cons]
        linarith

lemma tallyStep_unknown (acc : List (String × ℚ) × ℚ) (v : ModelVote)
    (h : v.prediction = "unknown") : tallyStep acc v = acc := by
  simp [tallyStep, h]

lemma tally_sum_inv : ∀ (votes : List ModelVote) (acc : List (String × ℚ) × ℚ),
    valsSum acc.1 = acc.2 →
    valsSum (votes.foldl tallyStep acc).1 = (votes.foldl tallyStep acc).2 := by
  intro votes
  induction votes with
  | nil => intro acc h; simpa using h
  | cons v vs ih =>
      intro acc h
      rw [List.foldl_cons]
      apply ih
      unfold tallyStep
      by_cases hv : v.prediction = "unknown"
      · simp [hv, h]
      · simp only [hv, ne_eq, not_false_iff, if_true]
        rw [valsSum_addVote, h]

lemma tally_nonneg_inv : ∀ (votes : List ModelVote),
    (∀ v ∈ votes, 0 ≤ v.confidence ∧ 0 ≤ v.weight) →
    ∀ acc : List (String × ℚ) × ℚ, (∀ p ∈ acc.1, 0 ≤ p.2) →
    ∀ p ∈ (votes.foldl tallyStep acc).1, 0 ≤ p.2 := by
  intro votes
  induction votes with
  | nil => intro _ acc h; simpa using h
  | cons v vs ih =>
      intro h acc hacc
      rw [List.foldl_cons]
      apply ih (fun u hu => h u (List.mem_cons_of_mem _ hu))
      unfold tallyStep
      by_cases hv : v.prediction = "unknown"
      · simpa [hv] using hacc
      · simp only [hv, ne_eq, not_false_iff, if_true]
        have hcw := h v (List.mem_cons_self _ _)
        exact addVote_nonneg hacc (mul_nonneg hcw.1 hcw.2)

lemma foldl_max_mem (xs : List (String × ℚ)) :
    ∀ b, xs.foldl (fun b y => if y.2 > b.2 then y else b) b = b ∨
         xs.foldl (fun b y => if y.2 > b.2 then y else b) b ∈ xs := by
  induction xs with
  | nil => intro b; left; rfl
  | cons x xs ih =>
      intro b
      rw [List.foldl_cons]
      rcases ih (if x.2 > b.2 then x else b) with h | h
      · rw [h]
        by_cases hx : x.2 > b.2
        · right; simp [hx]
        · left; simp [hx]
      · right; exact List.mem_cons_of_mem _ h

lemma maxByValue_mem {c : List (String × ℚ)} {b : String × ℚ}
    (h : maxByValue c = some b) : b ∈ c := by
  cases c with
  | nil => simp [maxByValue] at h
  | cons x xs =>
      simp only [maxByValue, Option.some_inj] at h
      rcases foldl_max_mem xs x with h2 | h2
      · rw [h2] at h
        rw [← h]
        exact List.mem_cons_self _ _
      · rw [h] at h2
        exact List.mem_cons_of_mem _ h2

lemma ensemble_confidence_bounds (votes : List ModelVote)
    (h : ∀ v ∈ votes, 0 ≤ v.confidence ∧ 0 ≤ v.weight) :
    0 ≤ (calculate_ensemble_prediction votes).confidence ∧
      (calculate_ensemble_prediction votes).confidence ≤ 1 := by
  have hnn : ∀ p ∈ (tally votes).1, 0 ≤ p.2 :=
    tally_nonneg_inv votes h ([], 0) (by simp)
  have hsum : valsSum (tally votes).1 = (tally votes).2 :=
    tally_sum_inv votes ([], 0) (by simp [valsSum])
  unfold calculate_ensemble_prediction
  cases hmax : maxByValue (tally votes).1 with
  | none => simp
  | some best =>
      have hb : best ∈ (tally votes).1 := maxByValue_mem hmax
      have h0 : 0 ≤ best.2 := hnn best hb
      have h1 : best.2 ≤ (tally votes).2 := hsum ▸ mem_le_valsSum hnn best hb
      by_cases hpos : (tally votes).2 > 0
      · simp only [hpos, if_true]
        exact ⟨div_nonneg h0 (le_of_lt hpos), (div_le_one hpos).mpr h1⟩
      · simp [hpos]

lemma threatStep_unknown (acc : ℚ × ℕ) (v : ModelVote)
    (h : v.prediction = "unknown") : threatStep acc v = acc := by
  simp [threatStep, h]

lemma threatTally_nonneg_inv : ∀ (votes : List ModelVote),
    (∀ v ∈ votes, 0 ≤ v.confidence ∧ 0 ≤ v.weight) →
    ∀ acc : ℚ × ℕ, 0 ≤ acc.1 → 0 ≤ (votes.foldl threatStep acc).1 := by
  intro votes
  induction votes with
  | nil => intro _ acc h; simpa using h
  | cons v vs ih =>
      intro h acc hacc
      rw [List.foldl_cons]
      apply ih (fun u hu => h u (List.mem_cons_of_mem _ hu))
      unfold threatStep
      by_cases hv : v.prediction = "unknown"
      · simpa [hv] using hacc
      · simp only [hv, ne_eq, not_false_iff, if_true]
        by_cases ha : isAttackLabel v.prediction
        · have hcw := h v (List.mem_cons_self _ _)
          simp only [ha, if_true]
          exact add_nonneg hacc (mul_nonneg hcw.1 hcw.2)
        · simpa [ha] using hacc

lemma base_threat_score_nonneg (votes : List ModelVote)
    (h : ∀ v ∈ votes, 0 ≤ v.confidence ∧ 0 ≤ v.weight) :
    0 ≤ base_threat_score votes := by
  unfold base_threat_score
  by_cases hpos : (threatTally votes).2 > 0
  · simp only [hpos, if_true]
    exact div_nonneg (threatTally_nonneg_inv votes h (0, 0) (by simp)) (by positivity)
  · simp [hpos]

lemma anomaly_score_nonneg (features : List (String × ℚ)) :
    0 ≤ calculate_anomaly_score features := by
  unfold calculate_anomaly_score
  refine le_min (by norm_num) ?_
  split_ifs <;> norm_num

lemma anomaly_score_le_one (features : List (String × ℚ)) :
    calculate_anomaly_score features ≤ 1 :=
  min_le_left _ _

lemma threat_score_bounds (votes : List ModelVote) (features : List (String × ℚ))
    (h : ∀ v ∈ votes, 0 ≤ v.confidence ∧ 0 ≤ v.weight) :
    0 ≤ calculate_threat_score votes features ∧
      calculate_threat_score votes features ≤ 1 := by
  unfold calculate_threat_score
  constructor
  · refine le_min (by norm_num) ?_
    have h1 := base_threat_score_nonneg votes h
    have h2 := anomaly_score_nonneg features
    linarith
  · exact min_le_left _ _

lemma foldl_skip_mid {α β : Type} (f : β → α → β) (x : α) (hx : ∀ b, f b x = b)
    (l1 l2 : List α) (init : β) :
    (l1 ++ x :: l2).foldl f init = (l1 ++ l2).foldl f init := by
  rw [List.foldl_append, List.foldl_append, List.foldl_cons, hx]

lemma foldl_id_of_unknown {β : Type} (f : β → ModelVote → β)
    (hf : ∀ b v, v.prediction = "unknown" → f b v = b) :
    ∀ votes : List ModelVote, (∀ v ∈ votes, v.prediction = "unknown") →
    ∀ acc, votes.foldl f acc = acc := by
  intro votes
  induction votes with
  | nil => intro _ acc; rfl
  | cons v vs ih =>
      intro h acc
      rw [List.foldl_cons, hf acc v (h v (List.mem_cons_self _ _))]
      exact ih (fun u hu => h u (List.mem_cons_of_mem _ hu)) acc

lemma tally_shape (L : String) : ∀ (votes : List ModelVote),
    (∀ v ∈ votes, v.prediction ≠ "unknown" → v.prediction = L) →
    ∀ acc : List (String × ℚ) × ℚ,
    (acc.1 = [] ∨ ∃ x, acc.1 = [(L, x)]) →
    ((votes.foldl tallyStep acc).1 = [] ∨ ∃ x, (votes.foldl tallyStep acc).1 = [(L, x)]) := by
  intro votes
  induction votes with
  | nil => intro _ acc h; simpa using h
  | cons v vs ih =>
      intro h acc hacc
      rw [List.foldl_cons]
      apply ih (fun u hu => h u (List.mem_cons_of_mem _ hu))
      unfold tallyStep
      by_cases hv : v.prediction = "unknown"
      · simpa [hv] using hacc
      · have hL : v.prediction = L := h v (List.mem_cons_self _ _) hv
        simp only [hv, ne_eq, not_false_iff, if_true]
        rcases hacc with h1 | ⟨x, h1⟩
        · right
          exact ⟨v.confidence * v.weight, by simp [h1, addVote, hL]⟩
        · right
          exact ⟨x + v.confidence * v.weight, by simp [h1, addVote, hL]⟩

lemma stats_foldl_performed : ∀ (l : List (ℚ × ℚ)) (s : DetectionStats),
    (l.foldl (fun s p => update_stats s p.1 p.2) s).detections_performed =
      s.detections_performed + l.length := by
  intro l
  induction l with
  | nil => intro s; simp
  | cons x xs ih =>
      intro s
      rw [List.foldl_cons, ih]
      simp only [update_stats, List.length_cons]
      omega

lemma stats_foldl_total : ∀ (l : List (ℚ × ℚ)) (s : DetectionStats),
    (l.foldl (fun s p => update_stats s p.1 p.2) s).total_processing_time =
      s.total_processing_time + (l.map Prod.fst).sum := by
  intro l
  induction l with
  | nil => intro s; simp
  | cons x xs ih =>
      intro s
      rw [List.foldl_cons, ih]
      simp only [update_stats, List.map_cons, List.sum_cons]
      ring

lemma stats_foldl_threats : ∀ (l : List (ℚ × ℚ)) (s : DetectionStats),
    (l.foldl (fun s p => update_stats s p.1 p.2) s).threats_detected =
      s.threats_detected + (l.filter (fun p => p.2 > 5/10)).length := by
  intro l
  induction l with
  | nil => intro s; simp
  | cons x xs ih =>
      intro s
      rw [List.foldl_cons, ih]
      by_cases hx : x.2 > 5/10
      · simp only [update_stats, hx, if_true, List.filter_cons, decide_eq_true_eq,
          List.length_cons]
        omega
      · simp only [update_stats, hx, if_false, List.filter_cons, decide_eq_true_eq]

lemma stats_foldl_avg : ∀ (l : List (ℚ × ℚ)), l ≠ [] → ∀ (s : DetectionStats),
    (l.foldl (fun s p => update_stats s p.1 p.2) s).avg_processing_time_ms =
      (l.foldl (fun s p => update_stats s p.1 p.2) s).total_processing_time /
        (((l.foldl (fun s p => update_stats s p.1 p.2) s).detections_performed : ℕ) : ℚ) := by
  intro l
  induction l with
  | nil => intro h; exact absurd rfl h
  | cons x xs ih =>
      intro _ s
      cases xs with
      | nil => simp [update_stats]
      | cons y ys =>
          rw [List.foldl_cons]
          exact ih (by simp) _

/-! Helper lemmas about the feature processor. -/

lemma hasKey_cons (x : String × ℚ) (xs : List (String × ℚ)) (name : String) :
    hasKey (x :: xs) name = (decide (x.1 = name) || hasKey xs name) := by
  by_cases hx : x.1 = name
  · simp [hasKey, List.find?, hx]
  · simp [hasKey, List.find?, hx]

lemma hasKey_append (m l : List (String × ℚ)) (name : String) :
    hasKey (m ++ l) name = (hasKey m name || hasKey l name) := by
  induction m with
  | nil => simp [hasKey]
  | cons x xs ih =>
      rw [List.cons_append, hasKey_cons, hasKey_cons, ih, Bool.or_assoc]

lemma hasKey_append_left {m : List (String × ℚ)} {name : String}
    (h : hasKey m name) (l : List (String × ℚ)) : hasKey (m ++ l) name := by
  rw [hasKey_append]
  simp [h]

lemma hasKey_append_self (m : List (String × ℚ)) (name : String) (q : ℚ) :
    hasKey (m ++ [(name, q)]) name := by
  rw [hasKey_append]
  simp [hasKey, List.find?]

lemma hasKey_process_step (acc : List (String × ℚ)) (p : String × RawValue)
    {name : String} (h : hasKey acc name) :
    hasKey (if hasKey acc p.1 then acc
            else acc ++ [(p.1, validate_and_clean_feature p.1 p.2)]) name := by
  by_cases hp : hasKey acc p.1
  · simpa [hp] using h
  · simp only [hp, if_false]
    exact hasKey_append_left h _

lemma hasKey_process_foldl : ∀ (l : List (String × RawValue))
    (acc : List (String × ℚ)) (name : String), hasKey acc name →
    hasKey (l.foldl
      (fun acc p =>
        if hasKey acc p.1 then acc
        else acc ++ [(p.1, validate_and_clean_feature p.1 p.2)]) acc) name := by
  intro l
  induction l with
  | nil => intro acc name h; simpa using h
  | cons x xs ih =>
      intro acc name h
      rw [List.foldl_cons]
      exact ih _ _ (hasKey_process_step acc x h)

lemma hasKey_map_of_mem {l : List String} (g : String → ℚ) {name : String}
    (h : name ∈ l) : hasKey (l.map (fun n => (n, g n))) name := by
  induction l with
  | nil => simp at h
  | cons x xs ih =>
      rw [List.map_cons, hasKey_cons]
      rcases List.mem_cons.mp h with h1 | h1
      · simp [h1]
      · simp [ih h1]

lemma hasKey_process_foldl_mem : ∀ (l : List (String × RawValue))
    (acc : List (String × ℚ)) (p : String × RawValue), p ∈ l →
    hasKey (l.foldl
      (fun acc p =>
        if hasKey acc p.1 then acc
        else acc ++ [(p.1, validate_and_clean_feature p.1 p.2)]) acc) p.1 := by
  intro l
  induction l with
  | nil => intro acc p h; simp at h
  | cons x xs ih =>
      intro acc p h
      rw [List.foldl_cons]
      rcases List.mem_cons.mp h with h1 | h1
      · subst h1
        apply hasKey_process_foldl
        by_cases hp : hasKey acc p.1
        · simp [hp]
        · simp only [hp, if_false]
          exact hasKey_append_self _ _ _
      · exact ih _ p h1

lemma addVote_keys {c : List (String × ℚ)} {l : String} {w : ℚ} :
    ∀ p ∈ addVote c l w, p.1 = l ∨ ∃ q ∈ c, p.1 = q.1 := by
  induction c with
  | nil =>
      intro p hp
      simp [addVote] at hp
      left
      rw [hp]
  | cons x xs ih =>
      obtain ⟨a, b⟩ := x
      intro p hp
      by_cases h : a = l
      · simp only [addVote, h, if_true] at hp
        rcases List.mem_cons.mp hp with h1 | h1
        · subst h1
          left
          rfl
        · right
          exact ⟨p, List.mem_cons_of_mem _ h1, rfl⟩
      · simp only [addVote, h, if_false] at hp
        rcases List.mem_cons.mp hp with h1 | h1
        · subst h1
          right
          exact ⟨(a, b), List.mem_cons_self _ _, rfl⟩
        · rcases ih p h1 with h2 | ⟨q, hq, h2⟩
          · left; exact h2
          · right; exact ⟨q, List.mem_cons_of_mem _ hq, h2⟩

lemma tally_keys_not_unknown : ∀ (votes : List ModelVote)
    (acc : List (String × ℚ) × ℚ), (∀ p ∈ acc.1, p.1 ≠ "unknown") →
    ∀ p ∈ (votes.foldl tallyStep acc).1, p.1 ≠ "unknown" := by
  intro votes
  induction votes with
  | nil => intro acc h; simpa using h
  | cons v vs ih =>
      intro acc hacc
      rw [List.foldl_cons]
      apply ih
      unfold tallyStep
      by_cases hv : v.prediction = "unknown"
      · simpa [hv] using hacc
      · simp only [hv, ne_eq, not_false_iff, if_true]
        intro p hp
        rcases addVote_keys p hp with h1 | ⟨q, hq, h1⟩
        · rw [h1]; exact hv
        · rw [h1]; exact hacc q hq

/-! The claims. -/

/-- C1: for every registry of models (any labels, per-model confidences in
[0,1], per-model weights ≥ 0, inference failures allowed, including the case
where every model fails) and any raw feature mapping, the ensemble confidence
and the threat score placed in the detection result both lie in [0,1]. -/
theorem C1_detection_scores_bounded (registry : List RegisteredModel)
    (features : List (String × ℚ))
    (hc : ∀ m ∈ registry, ∀ pc : String × ℚ, m.outcome = some pc → 0 ≤ pc.2 ∧ pc.2 ≤ 1)
    (hw : ∀ m ∈ registry, 0 ≤ m.weight) :
    0 ≤ (detect registry features).confidence ∧
      (detect registry features).confidence ≤ 1 ∧
      0 ≤ (detect registry features).threat_score ∧
      (detect registry features).threat_score ≤ 1 := by
  have hv : ∀ v ∈ registry.map voteOf, 0 ≤ v.confidence ∧ 0 ≤ v.weight := by
    intro v hvm
    rcases List.mem_map.mp hvm with ⟨m, hm, rfl⟩
    cases ho : m.outcome with
    | none =>
        constructor
        · simp [voteOf, ho]
        · simpa [voteOf, ho] using hw m hm
    | some pc =>
        constructor
        · simpa [voteOf, ho] using (hc m hm pc ho).1
        · simpa [voteOf, ho] using hw m hm
  have he := ensemble_confidence_bounds (registry.map voteOf) hv
  have ht := threat_score_bounds (registry.map voteOf) features hv
  exact ⟨by simpa [detect] using he.1, by simpa [detect] using he.2,
         by simpa [detect] using ht.1, by simpa [detect] using ht.2⟩

/-- Witness for C1 at a concrete one-model registry and feature mapping. -/
theorem C1_detection_scores_bounded_witness :
    0 ≤ (detect [⟨"dt", 1, some ("attack", 1/2)⟩] [("payload_entropy", 3)]).confidence ∧
      (detect [⟨"dt", 1, some ("attack", 1/2)⟩] [("payload_entropy", 3)]).confidence ≤ 1 ∧
      0 ≤ (detect [⟨"dt", 1, some ("attack", 1/2)⟩] [("payload_entropy", 3)]).threat_score ∧
      (detect [⟨"dt", 1, some ("attack", 1/2)⟩] [("payload_entropy", 3)]).threat_score ≤ 1 :=
  C1_detection_scores_bounded [⟨"dt", 1, some ("attack", 1/2)⟩] [("payload_entropy", 3)]
    (by
      intro m hm pc hpc
      rw [List.mem_singleton] at hm
      subst hm
      simp only [Option.some_inj] at hpc
      subst hpc
      norm_num)
    (by
      intro m hm
      rw [List.mem_singleton] at hm
      subst hm
      norm_num)

/-- C2 (counterexample): on raw features suspicious_flags = 10,
packets_per_second = 150, tcp_syn_ratio = 0.9 with every model "unknown", the
anomaly increment is 0.7 — not its cap 1.0 — and the final threat score is
0.14, not 0.2, refuting the claim's arithmetic. -/
theorem C2_spec_example_counterexample :
    calculate_anomaly_score
        [("suspicious_flags", 10), ("packets_per_second", 150), ("tcp_syn_ratio", 9/10)] ≠ 1 ∧
      calculate_threat_score [⟨"m", "unknown", 0, 1⟩]
        [("suspicious_flags", 10), ("packets_per_second", 150), ("tcp_syn_ratio", 9/10)]
        ≠ 1/5 := by
  constructor
  · simp [calculate_anomaly_score, getFeature]
    norm_num
  · simp [calculate_threat_score, base_threat_score, threatTally, threatStep,
      calculate_anomaly_score, getFeature]
    norm_num

/-- C2 (amended): on the same input with every model "unknown" (base 0.0), the
anomaly increment equals 0.7 and the final threat score equals
min(1.0, 0.0 + 0.7 * 0.2) = 0.14. -/
theorem C2_anomaly_example_amended :
    calculate_anomaly_score
        [("suspicious_flags", 10), ("packets_per_second", 150), ("tcp_syn_ratio", 9/10)] = 7/10 ∧
      calculate_threat_score [⟨"m", "unknown", 0, 1⟩]
        [("suspicious_flags", 10), ("packets_per_second", 150), ("tcp_syn_ratio", 9/10)]
        = 7/50 ∧
      min (1:ℚ) (0 + (7/10) * (2/10)) = 7/50 := by
  refine ⟨?_, ?_, ?_⟩
  · simp [calculate_anomaly_score, getFeature]
    norm_num
  · simp [calculate_threat_score, base_threat_score, threatTally, threatStep,
      calculate_anomaly_score, getFeature]
    norm_num
  · rw [min_eq_right (by norm_num)]
    norm_num

/-- C3 (counterexample): with the only model failing (recorded "unknown") and
raw features containing suspicious_flags = 10, the detection result has
prediction "unknown" and confidence 0.0, but its threat score is 0.06, not
0.0 as the claim requires regardless of raw features. -/
theorem C3_all_unknown_counterexample :
    (detect [⟨"m", 1, none⟩] [("suspicious_flags", 10)]).prediction = "unknown" ∧
      (detect [⟨"m", 1, none⟩] [("suspicious_flags", 10)]).confidence = 0 ∧
      (detect [⟨"m", 1, none⟩] [("suspicious_flags", 10)]).threat_score = 3/50 ∧
      (3/50 : ℚ) ≠ 0 := by
  refine ⟨?_, ?_, ?_, by norm_num⟩
  · simp [detect, voteOf, calculate_ensemble_prediction, tally, tallyStep, maxByValue]
  · simp [detect, voteOf, calculate_ensemble_prediction, tally, tallyStep, maxByValue]
  · simp [detect, voteOf, calculate_threat_score, base_threat_score, threatTally,
      threatStep, calculate_anomaly_score, getFeature]
    norm_num

/-- C3 (amended): when every model's recorded vote is "unknown", the result has
prediction "unknown" and confidence 0.0 and is a valid response, but its
threat score equals anomaly_score(features) * 0.2 — which is 0.0 exactly when
no anomaly heuristic fires on the raw features, not for all feature values. -/
theorem C3_all_unknown_amended (registry : List RegisteredModel)
    (features : List (String × ℚ))
    (h : ∀ m ∈ registry, (voteOf m).prediction = "unknown") :
    (detect registry features).prediction = "unknown" ∧
      (detect registry features).confidence = 0 ∧
      (detect registry features).threat_score =
        calculate_anomaly_score features * (2/10) := by
  have hall : ∀ v ∈ registry.map voteOf, v.prediction = "unknown" := by
    intro v hv
    rcases List.mem_map.mp hv with ⟨m, hm, rfl⟩
    exact h m hm
  have htally : tally (registry.map voteOf) = ([], 0) :=
    foldl_id_of_unknown tallyStep (fun b v hv => tallyStep_unknown b v hv)
      (registry.map voteOf) hall ([], 0)
  have hthreat : threatTally (registry.map voteOf) = (0, 0) :=
    foldl_id_of_unknown threatStep (fun b v hv => threatStep_unknown b v hv)
      (registry.map voteOf) hall (0, 0)
  refine ⟨?_, ?_, ?_⟩
  · simp [detect, calculate_ensemble_prediction, htally, maxByValue]
  · simp [detect, calculate_ensemble_prediction, htally, maxByValue]
  · have h1 := anomaly_score_le_one features
    simp only [detect, calculate_threat_score, base_threat_score, hthreat]
    rw [if_neg (by norm_num)]
    rw [min_eq_right (by linarith)]
    ring

/-- Witness for C3 (amended) at a concrete registry and feature mapping with no
anomaly heuristic firing: the threat score is exactly 0. -/
theorem C3_all_unknown_amended_witness :
    (detect [⟨"m", 1, none⟩] []).prediction = "unknown" ∧
      (detect [⟨"m", 1, none⟩] []).confidence = 0 ∧
      (detect [⟨"m", 1, none⟩] []).threat_score = calculate_anomaly_score [] * (2/10) :=
  C3_all_unknown_amended [⟨"m", 1, none⟩] []
    (by
      intro m hm
      rw [List.mem_singleton] at hm
      subst hm
      rfl)

/-- C4: two models vote "attack" with confidences 0.9 and 0.6 and weights 1.0
and 2.0, one votes "normal" with confidence 0.8 and weight 1.0: the weighted
totals are attack = 2.1 and normal = 0.8 with total confidence 2.9, and the
ensemble prediction is "attack" with confidence 2.1/2.9 = 21/29 ≈ 0.724. -/
theorem C4_weighted_vote_scenario :
    tally [⟨"m1", "attack", 9/10, 1⟩, ⟨"m2", "attack", 3/5, 2⟩, ⟨"m3", "normal", 4/5, 1⟩]
        = ([("attack", 21/10), ("normal", 4/5)], 29/10) ∧
      calculate_ensemble_prediction
        [⟨"m1", "attack", 9/10, 1⟩, ⟨"m2", "attack", 3/5, 2⟩, ⟨"m3", "normal", 4/5, 1⟩]
        = ⟨"attack", 21/29⟩ := by
  constructor
  · simp [tally, tallyStep, addVote]
    norm_num
  · simp [calculate_ensemble_prediction, tally, tallyStep, addVote, maxByValue]
    norm_num

/-- C5: a model that throws during inference (recorded as "unknown"/0.0) yields
the same ensemble prediction, confidence and threat score as a run in which
that model is absent from the registry, for every surrounding registry and
every feature mapping. -/
theorem C5_failed_model_equivalent_to_absent (r1 r2 : List RegisteredModel)
    (m : RegisteredModel) (features : List (String × ℚ)) (hm : m.outcome = none) :
    detect (r1 ++ m :: r2) features = detect (r1 ++ r2) features := by
  have hv : (voteOf m).prediction = "unknown" := by simp [voteOf, hm]
  have hmap1 : (r1 ++ m :: r2).map voteOf
      = r1.map voteOf ++ voteOf m :: r2.map voteOf := by simp
  have hmap2 : (r1 ++ r2).map voteOf = r1.map voteOf ++ r2.map voteOf := by simp
  have htally : tally (r1.map voteOf ++ voteOf m :: r2.map voteOf)
      = tally (r1.map voteOf ++ r2.map voteOf) := by
    unfold tally
    exact foldl_skip_mid tallyStep (voteOf m) (fun b => tallyStep_unknown b _ hv) _ _ _
  have hthreat : threatTally (r1.map voteOf ++ voteOf m :: r2.map voteOf)
      = threatTally (r1.map voteOf ++ r2.map voteOf) := by
    unfold threatTally
    exact foldl_skip_mid threatStep (voteOf m) (fun b => threatStep_unknown b _ hv) _ _ _
  simp [detect, calculate_ensemble_prediction, calculate_threat_score,
    base_threat_score, hmap1, hmap2, htally, hthreat]

/-- Witness for C5: dropping a concrete failing model from a concrete registry
leaves the detection output unchanged. -/
theorem C5_failed_model_equivalent_to_absent_witness :
    detect ([⟨"a", 1, some ("attack", 1/2)⟩] ++ ⟨"b", 1, none⟩ :: []) [("duration", 5)]
      = detect ([⟨"a", 1, some ("attack", 1/2)⟩] ++ []) [("duration", 5)] :=
  C5_failed_model_equivalent_to_absent [⟨"a", 1, some ("attack", 1/2)⟩] []
    ⟨"b", 1, none⟩ [("duration", 5)] rfl

/-- C6: starting from zero stats, after N update calls with processing times
t_1..t_N and threat scores s_1..s_N, detections_performed = N,
avg_processing_time_ms is the arithmetic mean of the t_i, threats_detected
counts the i with s_i > 0.5, and avg_processing_time_ms equals
total_processing_time / detections_performed whenever N > 0. -/
theorem C6_stats_invariants (calls : List (ℚ × ℚ)) (h : calls ≠ []) :
    (runStats calls).detections_performed = calls.length ∧
      (runStats calls).avg_processing_time_ms =
        (calls.map Prod.fst).sum / (calls.length : ℚ) ∧
      (runStats calls).threats_detected =
        (calls.filter (fun p => p.2 > 5/10)).length ∧
      (runStats calls).avg_processing_time_ms =
        (runStats calls).total_processing_time /
          (((runStats calls).detections_performed : ℕ) : ℚ) := by
  have hp := stats_foldl_performed calls initStats
  have ht := stats_foldl_total calls initStats
  have hth := stats_foldl_threats calls initStats
  have havg := stats_foldl_avg calls h initStats
  have hp0 : (runStats calls).detections_performed = calls.length := by
    unfold runStats
    rw [hp]
    simp [initStats]
  have ht0 : (runStats calls).total_processing_time = (calls.map Prod.fst).sum := by
    unfold runStats
    rw [ht]
    simp [initStats]
  have hth0 : (runStats calls).threats_detected
      = (calls.filter (fun p => p.2 > 5/10)).length := by
    unfold runStats
    rw [hth]
    simp [initStats]
  have havg0 : (runStats calls).avg_processing_time_ms =
      (runStats calls).total_processing_time /
        (((runStats calls).detections_performed : ℕ) : ℚ) := havg
  refine ⟨hp0, ?_, hth0, havg0⟩
  rw [havg0, ht0, hp0]

/-- Witness for C6 on two concrete calls: performed = 2, average = 3, one
threat counted, and the derived-average invariant holds. -/
theorem C6_stats_invariants_witness :
    (runStats [(2, 6/10), (4, 3/10)]).detections_performed = [(2, 6/10), ((4:ℚ), (3:ℚ)/10)].length ∧
      (runStats [(2, 6/10), (4, 3/10)]).avg_processing_time_ms =
        ([(2, 6/10), ((4:ℚ), (3:ℚ)/10)].map Prod.fst).sum / (([(2, 6/10), ((4:ℚ), (3:ℚ)/10)].length : ℕ) : ℚ) ∧
      (runStats [(2, 6/10), (4, 3/10)]).threats_detected =
        ([(2, 6/10), ((4:ℚ), (3:ℚ)/10)].filter (fun p => p.2 > 5/10)).length ∧
      (runStats [(2, 6/10), (4, 3/10)]).avg_processing_time_ms =
        (runStats [(2, 6/10), (4, 3/10)]).total_processing_time /
          (((runStats [(2, 6/10), (4, 3/10)]).detections_performed : ℕ) : ℚ) :=
  C6_stats_invariants [(2, 6/10), (4, 3/10)] (by simp)

/-- C7: for every feature name with a declared range [lo, hi], a value above hi
is clamped exactly to hi, a value below lo is raised exactly to lo, an in-range
value is unchanged, NaN and infinite values map to 0.0, and an absent feature
reads as the default 0.0. -/
theorem C7_feature_clamping (name : String) (lo hi : ℚ)
    (hr : rangeOf name = some (lo, hi)) (hlh : lo ≤ hi) (q : ℚ) :
    (hi < q → validate_and_clean_feature name (.num q) = hi) ∧
      (q < lo → validate_and_clean_feature name (.num q) = lo) ∧
      (lo ≤ q → q ≤ hi → validate_and_clean_feature name (.num q) = q) ∧
      validate_and_clean_feature name .nan = 0 ∧
      validate_and_clean_feature name .infinite = 0 ∧
      (∀ input : List (String × RawValue),
        input.find? (fun p => p.1 = name) = none → getRaw input name = .num 0) := by
  refine ⟨?_, ?_, ?_, rfl, rfl, ?_⟩
  · intro hq
    have h1 : ¬ q < lo := by linarith
    simp [validate_and_clean_feature, clampToRange, hr, h1, hq]
  · intro hq
    simp [validate_and_clean_feature, clampToRange, hr, hq]
  · intro h1 h2
    have h3 : ¬ q < lo := not_lt.mpr h1
    have h4 : ¬ hi < q := not_lt.mpr h2
    simp [validate_and_clean_feature, clampToRange, hr, h3, h4]
  · intro input hin
    simp [getRaw, hin]

/-- Witness for C7 on the declared range [0, 1] of tcp_syn_ratio: 2 clamps to
1, -3 clamps to 0, 0.5 is unchanged, and NaN maps to 0. -/
theorem C7_feature_clamping_witness :
    validate_and_clean_feature "tcp_syn_ratio" (.num 2) = 1 ∧
      validate_and_clean_feature "tcp_syn_ratio" (.num (-3)) = 0 ∧
      validate_and_clean_feature "tcp_syn_ratio" (.num (1/2)) = 1/2 ∧
      validate_and_clean_feature "tcp_syn_ratio" .nan = 0 :=
  ⟨(C7_feature_clamping "tcp_syn_ratio" 0 1
      (show rangeOf "tcp_syn_ratio" = some (0, 1) by simp [rangeOf, feature_ranges])
      (by norm_num) 2).1 (by norm_num),
   (C7_feature_clamping "tcp_syn_ratio" 0 1
      (show rangeOf "tcp_syn_ratio" = some (0, 1) by simp [rangeOf, feature_ranges])
      (by norm_num) (-3)).2.1 (by norm_num),
   (C7_feature_clamping "tcp_syn_ratio" 0 1
      (show rangeOf "tcp_syn_ratio" = some (0, 1) by simp [rangeOf, feature_ranges])
      (by norm_num) (1/2)).2.2.1 (by norm_num) (by norm_num),
   (C7_feature_clamping "tcp_syn_ratio" 0 1
      (show rangeOf "tcp_syn_ratio" = some (0, 1) by simp [rangeOf, feature_ranges])
      (by norm_num) 0).2.2.2.1⟩

/-- C8 (counterexample): one model voting "attack" with confidence 0.0 gives
total accumulated weighted confidence 0, yet the ensemble result keeps
prediction "attack" (with confidence 0.0), not "unknown" as claimed. -/
theorem C8_zero_total_counterexample :
    (tally [⟨"m", "attack", 0, 1⟩]).2 = 0 ∧
      calculate_ensemble_prediction [⟨"m", "attack", 0, 1⟩] = ⟨"attack", 0⟩ ∧
      ("attack" : String) ≠ "unknown" := by
  refine ⟨?_, ?_, by simp⟩
  · simp [tally, tallyStep, addVote]
  · simp [calculate_ensemble_prediction, tally, tallyStep, addVote, maxByValue]

/-- C8 (amended): whenever the total accumulated weighted confidence is 0, the
ensemble confidence is 0.0; the prediction is "unknown" exactly when no model
produced a non-"unknown" label (empty prediction counts) — so a model with a
non-"unknown" label of weighted confidence 0 keeps its own label as the
ensemble prediction. -/
theorem C8_zero_total_amended (votes : List ModelVote)
    (h : (tally votes).2 = 0) :
    (calculate_ensemble_prediction votes).confidence = 0 ∧
      ((calculate_ensemble_prediction votes).prediction = "unknown" ↔
        (tally votes).1 = []) := by
  have hkeys : ∀ p ∈ (tally votes).1, p.1 ≠ "unknown" :=
    tally_keys_not_unknown votes ([], 0) (by simp)
  unfold calculate_ensemble_prediction
  cases hmax : maxByValue (tally votes).1 with
  | none =>
      have hc : (tally votes).1 = [] := by
        cases hcc : (tally votes).1 with
        | nil => rfl
        | cons x xs =>
            rw [hcc] at hmax
            simp [maxByValue] at hmax
      simp [hc]
  | some best =>
      have hb : best ∈ (tally votes).1 := maxByValue_mem hmax
      refine ⟨by simp [h], ?_, ?_⟩
      · intro hpred
        exact absurd hpred (hkeys best hb)
      · intro hc
        rw [hc] at hb
        simp at hb

/-- Witness for C8 (amended) at the zero-confidence "attack" vote: confidence
is 0 and the prediction is "unknown" iff the prediction counts are empty
(here they are not, so the prediction stays "attack"). -/
theorem C8_zero_total_amended_witness :
    (calculate_ensemble_prediction [⟨"m", "attack", 0, 1⟩]).confidence = 0 ∧
      ((calculate_ensemble_prediction [⟨"m", "attack", 0, 1⟩]).prediction = "unknown" ↔
        (tally [⟨"m", "attack", 0, 1⟩]).1 = []) :=
  C8_zero_total_amended [⟨"m", "attack", 0, 1⟩]
    (by simp [tally, tallyStep, addVote])

/-- C9: feature processing is total — for every input mapping (numbers, nulls,
NaN, infinities, or non-coercible values) the embedded sanitizer returns a
mapping containing an entry for every required feature name and for every
extra name present in the input. -/
theorem C9_process_features_total (input : List (String × RawValue)) :
    (∀ name ∈ required_features, hasKey (process_features input) name) ∧
      ∀ p ∈ input, hasKey (process_features input) p.1 := by
  constructor
  · intro name hname
    unfold process_features
    apply hasKey_process_foldl
    exact hasKey_map_of_mem _ hname
  · intro p hp
    unfold process_features
    exact hasKey_process_foldl_mem input _ p hp

/-- Witness for C9: processing an input with one unexpected NaN-valued name
yields entries for a required feature and for the extra name. -/
theorem C9_process_features_total_witness :
    hasKey (process_features [("foo", .nan)]) "total_packets" ∧
      hasKey (process_features [("foo", .nan)]) "foo" :=
  ⟨(C9_process_features_total [("foo", .nan)]).1 "total_packets"
      (by simp [required_features]),
   (C9_process_features_total [("foo", .nan)]).2 ("foo", .nan)
      (List.mem_singleton.mpr rfl)⟩

/-- C10: whenever every model that produced a non-"unknown" label predicts the
same label and the total accumulated weighted confidence is strictly positive,
the ensemble confidence is exactly 1.0, however low the individual model
confidences are. -/
theorem C10_unanimous_confidence_one (votes : List ModelVote) (L : String)
    (hall : ∀ v ∈ votes, v.prediction ≠ "unknown" → v.prediction = L)
    (hpos : 0 < (tally votes).2) :
    (calculate_ensemble_prediction votes).confidence = 1 := by
  have hdef : tally votes = votes.foldl tallyStep ([], 0) := rfl
  have hsum : valsSum (tally votes).1 = (tally votes).2 :=
    tally_sum_inv votes ([], 0) (by simp [valsSum])
  have hshape := tally_shape L votes hall ([], 0) (Or.inl rfl)
  rw [← hdef] at hshape
  rcases hshape with hnil | ⟨x, hx⟩
  · exfalso
    rw [hnil] at hsum
    simp [valsSum] at hsum
    rw [← hsum] at hpos
    exact lt_irrefl 0 hpos
  · have hxval : x = (tally votes).2 := by
      rw [hx] at hsum
      simpa [valsSum] using hsum
    unfold calculate_ensemble_prediction
    rw [hx]
    simp only [maxByValue, List.foldl_nil]
    simp only [gt_iff_lt, hpos, if_true]
    rw [hxval]
    exact div_self (ne_of_gt hpos)

/-- Witness for C10: a single surviving "attack" vote with confidence only 0.1
yields ensemble confidence exactly 1. -/
theorem C10_unanimous_confidence_one_witness :
    (calculate_ensemble_prediction [⟨"m", "attack", 1/10, 1⟩]).confidence = 1 :=
  C10_unanimous_confidence_one [⟨"m", "attack", 1/10, 1⟩] "attack"
    (by
      intro v hv _
      rw [List.mem_singleton] at hv
      subst hv
      rfl)
    (by simp [tally, tallyStep, addVote])

end SuricataIDS
